import Mathlib

/-!
Shallow embedding of the `modulo-three-advance` Go repository.

Go strings are modelled as `List Char` (the `for _, char := range input`
loop iterates over runes); state and symbol identifiers, which the Go code
keeps as `string` values, are modelled as Lean `String`.  Go maps are
modelled as association lists with first-match lookup (`lookupStr`), and
the `map[string]bool` sets that `NewFiniteAutomaton` builds from the
declared slices are modelled by membership in those slices
(`List.contains`), which is exactly what the Go sets contain.  Fallible
operations return a structured error value in place of Go's `error`
strings.
-/

/-- Lookup in an association list, modelling Go `map[string]V` access
`m[key]` (the comma-ok form): `none` plays the role of `ok = false`. -/
def lookupStr {α : Type} (key : String) : List (String × α) → Option α
  | [] => none
  | (k, v) :: rest => if k = key then some v else lookupStr key rest

/-- A transition table, Go `map[string]map[string]string`:
current state → input symbol → next state. -/
def TransTable : Type := List (String × List (String × String))

/-- Go `string(char)`: the one-rune string used as a map key inside
`Run` and `ValidateInput`. -/
def runeStr (c : Char) : String := String.mk [c]

/-- Structured stand-in for the `error` values produced by
`FiniteAutomaton.Run` (fsm.go lines 38 and 44). -/
inductive RunError : Type
  | missingRow (state : String)
  | unknownSymbol (state : String) (symbol : String)
deriving DecidableEq, Repr

/-- Structured stand-in for the `error` values produced by
`NewFiniteAutomaton` (fsm.go lines 87, 93, 102, 108, 112). -/
inductive ConfigError : Type
  | initialNotInStates (state : String)
  | acceptingNotInStates (state : String)
  | missingRow (state : String)
  | missingEntry (state : String) (symbol : String)
  | targetNotInStates (state : String) (symbol : String) (target : String)
deriving DecidableEq, Repr

/-- The `FiniteAutomaton` 5-tuple of fsm.go (and the field-identical copy
inside package mod3): Q, Σ, q0, F as declared lists, δ as a two-level
table.  fsm.go stores Q, Σ, F as `map[string]bool` sets built from the
declared slices; membership in those sets coincides with membership in
the slices, which is what `List.contains` tests here. -/
structure FiniteAutomaton : Type where
  States : List String
  Alphabet : List String
  InitialState : String
  AcceptingStates : List String
  Transitions : TransTable

/-- The loop body state of `Run`: starting from `current`, consume the
remaining input.  On either failure the Go code returns `("", err)`;
the pair is kept so that the discarded partial state is visible. -/
def runFrom (fa : FiniteAutomaton) (current : String) :
    List Char → String × Option RunError
  | [] => (current, none)
  | c :: rest =>
    match lookupStr current fa.Transitions with
    | none => ("", some (RunError.missingRow current))
    | some row =>
      match lookupStr (runeStr c) row with
      | none => ("", some (RunError.unknownSymbol current (runeStr c)))
      | some next => runFrom fa next rest

/-- Method `FiniteAutomaton.Run` (fsm.go lines 28-53): walk the input from the
initial state. -/
def FiniteAutomaton.Run (fa : FiniteAutomaton) (input : List Char) :
    String × Option RunError :=
  runFrom fa fa.InitialState input

/-- Method `FiniteAutomaton.IsAccepting` (fsm.go lines 121-126): membership in
the accepting-state set. -/
def FiniteAutomaton.IsAccepting (fa : FiniteAutomaton) (state : String) : Bool :=
  fa.AcceptingStates.contains state

/-- Method `FiniteAutomaton.ValidateInput` (fsm.go lines 129-144): every rune of
the input must be a member of the alphabet set. -/
def FiniteAutomaton.ValidateInput (fa : FiniteAutomaton) (input : List Char) : Bool :=
  input.all (fun c => fa.Alphabet.contains (runeStr c))

/-- Inner loop of check 3 of `NewFiniteAutomaton` (fsm.go lines 105-114):
for one declared state's row, every declared symbol needs an entry and
the entry's target must be a declared state. -/
def checkRow (stateSet : List String) (state : String)
    (row : List (String × String)) : List String → Option ConfigError
  | [] => none
  | sym :: rest =>
    match lookupStr sym row with
    | none => some (ConfigError.missingEntry state sym)
    | some target =>
      if stateSet.contains target then checkRow stateSet state row rest
      else some (ConfigError.targetNotInStates state sym target)

/-- Outer loop of check 3 of `NewFiniteAutomaton` (fsm.go lines 99-115):
every declared state needs a transition row, checked symbol by symbol. -/
def checkStates (stateSet alphabet : List String) (transitions : TransTable) :
    List String → Option ConfigError
  | [] => none
  | s :: rest =>
    match lookupStr s transitions with
    | none => some (ConfigError.missingRow s)
    | some row =>
      match checkRow stateSet s row alphabet with
      | some e => some e
      | none => checkStates stateSet alphabet transitions rest

/-- Check 2 of `NewFiniteAutomaton` (fsm.go lines 91-95): every accepting
state must be a declared state. -/
def checkAccepting (stateSet : List String) : List String → Option ConfigError
  | [] => none
  | a :: rest =>
    if stateSet.contains a then checkAccepting stateSet rest
    else some (ConfigError.acceptingNotInStates a)

/-- Constructor `NewFiniteAutomaton` (fsm.go lines 55-119): validate the declared
5-tuple in source order and either return the first configuration error
or the assembled automaton.  The returned automaton carries exactly the
supplied data. -/
def NewFiniteAutomaton (states alphabet : List String) (initialState : String)
    (acceptingStates : List String) (transitions : TransTable) :
    Except ConfigError FiniteAutomaton :=
  if ¬ states.contains initialState then
    Except.error (ConfigError.initialNotInStates initialState)
  else
    match checkAccepting states acceptingStates with
    | some e => Except.error e
    | none =>
      match checkStates states alphabet transitions states with
      | some e => Except.error e
      | none =>
        Except.ok
          { States := states, Alphabet := alphabet, InitialState := initialState,
            AcceptingStates := acceptingStates, Transitions := transitions }

/-!
The mod3 package.  `ModThreeCalculator` holds an `Automaton` interface
value, so the calculator layer is modelled over a record of the three
interface operations; a `FiniteAutomaton` is coerced into it just as the
Go value satisfies the interface.
-/

/-- The `Automaton` interface of the fsm package (fsm.go lines 7-11):
`Run`, `IsAccepting`, `ValidateInput`. -/
structure Automaton : Type where
  Run : List Char → String × Option RunError
  IsAccepting : String → Bool
  ValidateInput : List Char → Bool

/-- A `FiniteAutomaton` satisfies the `Automaton` interface through its
three methods. -/
def FiniteAutomaton.toAutomaton (fa : FiniteAutomaton) : Automaton where
  Run := fa.Run
  IsAccepting := fa.IsAccepting
  ValidateInput := fa.ValidateInput

/-- Structured stand-in for the `error` values `Calculate` can return
(modthree.go lines 95, 100, 107): the `Run` error surfaced as-is, the
non-accepting-state error, and the unknown-state error. -/
inductive CalcError : Type
  | runErr (e : RunError)
  | nonAccepting (state : String)
  | unknownState (state : String)
deriving DecidableEq, Repr

/-- Go `unicode.IsSpace` on a rune: the Unicode White_Space code points,
which is what `strings.TrimSpace` trims. -/
def isGoSpace (c : Char) : Bool :=
  let n := c.toNat
  (0x09 ≤ n && n ≤ 0x0D) || n = 0x20 || n = 0x85 || n = 0xA0 || n = 0x1680 ||
    (0x2000 ≤ n && n ≤ 0x200A) || n = 0x2028 || n = 0x2029 || n = 0x202F ||
    n = 0x205F || n = 0x3000

/-- Go `strings.TrimSpace`: drop White_Space runes from both ends. -/
def trimSpace (s : List Char) : List Char :=
  ((s.dropWhile isGoSpace).reverse.dropWhile isGoSpace).reverse

/-- String constant `StateS0` of package mod3. -/
def StateS0 : String := "S0"

/-- String constant `StateS1` of package mod3. -/
def StateS1 : String := "S1"

/-- String constant `StateS2` of package mod3. -/
def StateS2 : String := "S2"

/-- String constant `Symbol0` of package mod3. -/
def Symbol0 : String := "0"

/-- String constant `Symbol1` of package mod3. -/
def Symbol1 : String := "1"

/-- The private `stateToRemainder` method of `ModThreeCalculator`
(modthree.go lines 63-75). -/
def stateToRemainder (state : String) : Int :=
  if state = StateS0 then 0
  else if state = StateS1 then 1
  else if state = StateS2 then 2
  else -1

/-- Function `StateToRemainder` of the alternative mod3 pipeline (the same switch,
package-level function). -/
def StateToRemainder (state : String) : Int :=
  if state = StateS0 then 0
  else if state = StateS1 then 1
  else if state = StateS2 then 2
  else -1

/-- Structure `ModThreeCalculator` (modthree.go lines 24-26): wraps the underlying
generic engine behind the `Automaton` interface. -/
structure ModThreeCalculator : Type where
  fa : Automaton

/-- Method `ModThreeCalculator.Calculate` (modthree.go lines 86-111): empty
check, run, acceptance check, state-to-remainder mapping, with sentinel
-1 on every error path. -/
def Calculate (c : ModThreeCalculator) (input : List Char) :
    Int × Option CalcError :=
  if trimSpace input = [] then (0, none)
  else
    match c.fa.Run input with
    | (_, some e) => (-1, some (CalcError.runErr e))
    | (finalState, none) =>
      if ¬ c.fa.IsAccepting finalState then
        (-1, some (CalcError.nonAccepting finalState))
      else
        let remainder := stateToRemainder finalState
        if remainder = -1 then (-1, some (CalcError.unknownState finalState))
        else (remainder, none)

/-- Function `GetModThreeConfig` (modthree.go lines 28-43): the modulo-three
5-tuple. -/
def GetModThreeConfig : FiniteAutomaton where
  States := [StateS0, StateS1, StateS2]
  Alphabet := [Symbol0, Symbol1]
  InitialState := StateS0
  AcceptingStates := [StateS0, StateS1, StateS2]
  Transitions :=
    [(StateS0, [(Symbol0, StateS0), (Symbol1, StateS1)]),
     (StateS1, [(Symbol0, StateS2), (Symbol1, StateS0)]),
     (StateS2, [(Symbol0, StateS1), (Symbol1, StateS2)])]

/-- Factory `NewModThreeCalculator` (modthree.go lines 46-58): pass the
configuration through the validating constructor; Go wraps the error with
a message, modelled by passing the error on. -/
def NewModThreeCalculator (cfg : FiniteAutomaton) :
    Except ConfigError ModThreeCalculator :=
  (NewFiniteAutomaton cfg.States cfg.Alphabet cfg.InitialState
      cfg.AcceptingStates cfg.Transitions).map
    (fun fa => { fa := fa.toAutomaton })

/-- Function `ModThreeFA` of the alternative mod3 pipeline: the same modulo-three
automaton assembled directly, without the validating constructor. -/
def ModThreeFA : FiniteAutomaton where
  States := [StateS0, StateS1, StateS2]
  Alphabet := [Symbol0, Symbol1]
  InitialState := StateS0
  AcceptingStates := [StateS0, StateS1, StateS2]
  Transitions :=
    [(StateS0, [(Symbol0, StateS0), (Symbol1, StateS1)]),
     (StateS1, [(Symbol0, StateS2), (Symbol1, StateS0)]),
     (StateS2, [(Symbol0, StateS1), (Symbol1, StateS2)])]

/-- The private `modThree` core of the alternative pipeline: empty check,
run, direct `StateToRemainder` mapping, -1 on a run error.  It only uses
the `Run` operation of its automaton argument. -/
def modThreeCore (run : List Char → String × Option RunError)
    (input : List Char) : Int :=
  if trimSpace input = [] then 0
  else
    match run input with
    | (_, some _) => -1
    | (finalState, none) => StateToRemainder finalState

/-- Function `ModThree` of the alternative pipeline: the core applied to the real
modulo-three automaton. -/
def ModThree (input : List Char) : Int :=
  modThreeCore ModThreeFA.toAutomaton.Run input

/-- The calculator value that `NewModThreeCalculator GetModThreeConfig`
returns (the construction succeeds; proved below). -/
def mod3Calc : ModThreeCalculator where
  fa := (GetModThreeConfig).toAutomaton

/-- Modelled from the spec: the numeric value of a binary numeral given
most-significant bit first — the meaning the spec assigns to an input of
'0'/'1' characters.  Used only to state correctness, never by the code. -/
def natOfBits (cs : List Char) : Nat :=
  cs.foldl (fun n c => 2 * n + (if c = '1' then 1 else 0)) 0

/-- Modelled from the spec: the terminal state as the left fold of the
transition function over the input's symbols starting from the initial
state, one lookup per symbol (spec section 4.1, Run semantics).  A
refinement-comparison definition for the claim that `Run` computes this
fold. -/
def runSpec (fa : FiniteAutomaton) (input : List Char) : Option String :=
  input.foldlM
    (fun s c => (lookupStr s fa.Transitions).bind (fun row => lookupStr (runeStr c) row))
    fa.InitialState

/-- The four construction invariants of the spec (section 3), stated over
the declared data: initial state declared, accepting states declared,
every declared state has a transition entry for every declared symbol,
and every such target is declared. -/
def ConfigValid (states alphabet : List String) (initialState : String)
    (acceptingStates : List String) (transitions : TransTable) : Prop :=
  initialState ∈ states ∧
  (∀ a ∈ acceptingStates, a ∈ states) ∧
  (∀ s ∈ states, ∃ row, lookupStr s transitions = some row ∧
    ∀ sym ∈ alphabet, ∃ t, lookupStr sym row = some t ∧ t ∈ states)

theorem contains_eq_true_iff (l : List String) (a : String) :
    l.contains a = true ↔ a ∈ l := by
  simp

theorem checkAccepting_eq_none_iff (S l : List String) :
    checkAccepting S l = none ↔ ∀ a ∈ l, a ∈ S := by
  induction l with
  | nil => simp [checkAccepting]
  | cons a rest ih =>
    by_cases h : a ∈ S
    · simp [checkAccepting, h, ih]
    · simp [checkAccepting, h]

theorem checkRow_eq_none_iff (S : List String) (st : String)
    (row : List (String × String)) (syms : List String) :
    checkRow S st row syms = none ↔
      ∀ sym ∈ syms, ∃ t, lookupStr sym row = some t ∧ t ∈ S := by
  induction syms with
  | nil => simp [checkRow]
  | cons sym rest ih =>
    cases hl : lookupStr sym row with
    | none => simp [checkRow, hl]
    | some t =>
      by_cases hc : t ∈ S
      · simp [checkRow, hl, hc, ih]
      · simp [checkRow, hl, hc]

theorem checkStates_eq_none_iff (S alpha : List String) (tr : TransTable)
    (l : List String) :
    checkStates S alpha tr l = none ↔
      ∀ s ∈ l, ∃ row, lookupStr s tr = some row ∧ checkRow S s row alpha = none := by
  induction l with
  | nil => simp [checkStates]
  | cons s rest ih =>
    cases hl : lookupStr s tr with
    | none => simp [checkStates, hl]
    | some row =>
      cases hr : checkRow S s row alpha with
      | some e => simp [checkStates, hl, hr]
      | none => simp [checkStates, hl, hr, ih]

theorem newFiniteAutomaton_ok_iff (states alphabet : List String) (i : String)
    (acc : List String) (tr : TransTable) :
    (∃ fa, NewFiniteAutomaton states alphabet i acc tr = Except.ok fa) ↔
      ConfigValid states alphabet i acc tr := by
  unfold NewFiniteAutomaton ConfigValid
  by_cases h1 : i ∈ states
  · rw [if_neg (by simp [h1])]
    cases hca : checkAccepting states acc with
    | some e =>
      simp only []
      constructor
      · rintro ⟨fa, hfa⟩; cases hfa
      · rintro ⟨-, h2, -⟩
        rw [(checkAccepting_eq_none_iff states acc).mpr h2] at hca
        cases hca
    | none =>
      cases hcs : checkStates states alphabet tr states with
      | some e =>
        constructor
        · rintro ⟨fa, hfa⟩; cases hfa
        · rintro ⟨-, -, h3⟩
          have hnone : checkStates states alphabet tr states = none := by
            rw [checkStates_eq_none_iff]
            intro s hs
            obtain ⟨row, hrow, hall⟩ := h3 s hs
            exact ⟨row, hrow, (checkRow_eq_none_iff states s row alphabet).mpr hall⟩
          rw [hnone] at hcs; cases hcs
      | none =>
        constructor
        · intro _
          refine ⟨h1, (checkAccepting_eq_none_iff states acc).mp hca, ?_⟩
          intro s hs
          obtain ⟨row, hrow, hr⟩ :=
            (checkStates_eq_none_iff states alphabet tr states).mp hcs s hs
          exact ⟨row, hrow, (checkRow_eq_none_iff states s row alphabet).mp hr⟩
        · intro _; exact ⟨_, rfl⟩
  · rw [if_pos (by simp [h1])]
    constructor
    · rintro ⟨fa, hfa⟩; cases hfa
    · rintro ⟨h2, -⟩; exact absurd h2 h1

theorem newFiniteAutomaton_ok_fields (states alphabet : List String) (i : String)
    (acc : List String) (tr : TransTable) (fa : FiniteAutomaton)
    (h : NewFiniteAutomaton states alphabet i acc tr = Except.ok fa) :
    fa = { States := states, Alphabet := alphabet, InitialState := i,
           AcceptingStates := acc, Transitions := tr } := by
  unfold NewFiniteAutomaton at h
  by_cases h1 : i ∈ states
  · rw [if_neg (by simp [h1])] at h
    cases hca : checkAccepting states acc with
    | some e => rw [hca] at h; cases h
    | none =>
      rw [hca] at h
      cases hcs : checkStates states alphabet tr states with
      | some e => rw [hcs] at h; cases h
      | none => rw [hcs] at h; cases h; rfl
  · rw [if_pos (by simp [h1])] at h; cases h

theorem runFrom_ok_of_closed (fa : FiniteAutomaton)
    (hclosed : ∀ s ∈ fa.States, ∃ row, lookupStr s fa.Transitions = some row ∧
      ∀ sym ∈ fa.Alphabet, ∃ t, lookupStr sym row = some t ∧ t ∈ fa.States)
    (input : List Char) :
    ∀ current, current ∈ fa.States →
      (∀ c ∈ input, runeStr c ∈ fa.Alphabet) →
      ∃ st, runFrom fa current input = (st, none) ∧ st ∈ fa.States := by
  induction input with
  | nil => exact fun current hc _ => ⟨current, rfl, hc⟩
  | cons c rest ih =>
    intro current hc hv
    obtain ⟨row, hrow, hall⟩ := hclosed current hc
    obtain ⟨t, ht, htmem⟩ := hall (runeStr c) (hv c (List.mem_cons_self c rest))
    obtain ⟨st, hst, hstmem⟩ :=
      ih t htmem (fun d hd => hv d (List.mem_cons_of_mem c hd))
    exact ⟨st, by simp only [runFrom, hrow, ht]; exact hst, hstmem⟩

theorem runFrom_ok_foldlM (fa : FiniteAutomaton) (input : List Char) :
    ∀ current st, runFrom fa current input = (st, none) →
      input.foldlM
        (fun s c => (lookupStr s fa.Transitions).bind
          (fun row => lookupStr (runeStr c) row)) current = some st := by
  induction input with
  | nil =>
    intro current st h
    cases h
    rfl
  | cons c rest ih =>
    intro current st h
    simp only [runFrom] at h
    cases hrow : lookupStr current fa.Transitions with
    | none => simp only [hrow] at h; simp at h
    | some row =>
      simp only [hrow] at h
      cases ht : lookupStr (runeStr c) row with
      | none => simp only [ht] at h; simp at h
      | some next =>
        simp only [ht] at h
        simpa [List.foldlM_cons, hrow, ht] using ih next st h

theorem runFrom_error_split (fa : FiniteAutomaton) (input : List Char) :
    ∀ current st e, runFrom fa current input = (st, some e) →
      st = "" ∧ ∃ pre c rest s, input = pre ++ c :: rest ∧
        runFrom fa current pre = (s, none) ∧
        runFrom fa s [c] = ("", some e) ∧
        ∀ rest2, runFrom fa current (pre ++ c :: rest2) = ("", some e) := by
  induction input with
  | nil => intro current st e h; cases h
  | cons c rest ih =>
    intro current st e h
    simp only [runFrom] at h
    cases hrow : lookupStr current fa.Transitions with
    | none =>
      simp only [hrow] at h
      cases h
      refine ⟨rfl, [], c, rest, current, rfl, rfl, ?_, ?_⟩
      · simp only [runFrom, hrow]
      · intro rest2
        simp only [List.nil_append, runFrom, hrow]
    | some row =>
      simp only [hrow] at h
      cases ht : lookupStr (runeStr c) row with
      | none =>
        simp only [ht] at h
        cases h
        refine ⟨rfl, [], c, rest, current, rfl, rfl, ?_, ?_⟩
        · simp only [runFrom, hrow, ht]
        · intro rest2
          simp only [List.nil_append, runFrom, hrow, ht]
      | some next =>
        simp only [ht] at h
        obtain ⟨hst, pre, c2, rest2, s, hsplit, hpre, hstep, hforall⟩ :=
          ih next st e h
        refine ⟨hst, c :: pre, c2, rest2, s, by rw [hsplit, List.cons_append], ?_, hstep, ?_⟩
        · simp only [runFrom, hrow, ht]; exact hpre
        · intro r3
          simp only [List.cons_append, runFrom, hrow, ht]
          exact hforall r3

theorem trimSpace_eq_nil_iff (s : List Char) :
    trimSpace s = [] ↔ ∀ c ∈ s, isGoSpace c = true := by
  unfold trimSpace
  rw [List.reverse_eq_nil_iff, List.dropWhile_eq_nil_iff]
  constructor
  · intro h c hc
    have hsplit := List.takeWhile_append_dropWhile isGoSpace s
    rw [← hsplit] at hc
    rcases List.mem_append.mp hc with h1 | h2
    · exact List.mem_takeWhile_imp h1
    · exact h c (List.mem_reverse.mpr h2)
  · intro h c hc
    exact h c ((List.dropWhile_sublist isGoSpace).subset (List.mem_reverse.mp hc))

theorem runeStr_inj {c d : Char} (h : runeStr c = runeStr d) : c = d := by
  have hd := congrArg String.data h
  simpa [runeStr] using hd

theorem symbol0_eq_runeStr_iff (c : Char) : Symbol0 = runeStr c ↔ c = '0' := by
  constructor
  · intro h
    exact (runeStr_inj (h.symm.trans rfl)).symm ▸ rfl
  · intro h; rw [h]; rfl

theorem symbol1_eq_runeStr_iff (c : Char) : Symbol1 = runeStr c ↔ c = '1' := by
  constructor
  · intro h
    exact (runeStr_inj (h.symm.trans rfl)).symm ▸ rfl
  · intro h; rw [h]; rfl

/-- The state that represents remainder `n % 3` in the modulo-three
configuration. -/
def stateOfMod3 (n : Nat) : String :=
  if n % 3 = 0 then StateS0 else if n % 3 = 1 then StateS1 else StateS2

/-- The binary value fold started from an arbitrary accumulator. -/
def natOfBitsFrom (r : Nat) (cs : List Char) : Nat :=
  cs.foldl (fun n c => 2 * n + (if c = '1' then 1 else 0)) r

theorem natOfBits_eq_from (cs : List Char) : natOfBits cs = natOfBitsFrom 0 cs := rfl

theorem lookup_pair (t0 t1 : String) (c : Char) :
    lookupStr (runeStr c) [(Symbol0, t0), (Symbol1, t1)] =
      if c = '0' then some t0 else if c = '1' then some t1 else none := by
  by_cases hc0 : c = '0'
  · subst hc0; rfl
  · by_cases hc1 : c = '1'
    · subst hc1; rfl
    · rw [if_neg hc0, if_neg hc1]
      have h0 : ¬ (Symbol0 = runeStr c) := fun h => hc0 ((symbol0_eq_runeStr_iff c).mp h)
      have h1 : ¬ (Symbol1 = runeStr c) := fun h => hc1 ((symbol1_eq_runeStr_iff c).mp h)
      simp [lookupStr, h0, h1]

theorem mod3_rows (current : String)
    (h : current ∈ [StateS0, StateS1, StateS2]) :
    ∃ t0 t1, lookupStr current GetModThreeConfig.Transitions =
        some [(Symbol0, t0), (Symbol1, t1)] ∧
      t0 ∈ [StateS0, StateS1, StateS2] ∧ t1 ∈ [StateS0, StateS1, StateS2] := by
  fin_cases h
  · exact ⟨StateS0, StateS1, rfl, by decide, by decide⟩
  · exact ⟨StateS2, StateS0, rfl, by decide, by decide⟩
  · exact ⟨StateS1, StateS2, rfl, by decide, by decide⟩

theorem mod3_runFrom_mem (input : List Char) :
    ∀ current, current ∈ [StateS0, StateS1, StateS2] →
      ∀ st, runFrom GetModThreeConfig current input = (st, none) →
        st ∈ [StateS0, StateS1, StateS2] := by
  induction input with
  | nil => intro current hc st h; cases h; exact hc
  | cons c rest ih =>
    intro current hc st h
    obtain ⟨t0, t1, hrow, ht0, ht1⟩ := mod3_rows current hc
    simp only [runFrom, hrow, lookup_pair] at h
    by_cases hc0 : c = '0'
    · rw [if_pos hc0] at h
      exact ih t0 ht0 st h
    · by_cases hc1 : c = '1'
      · rw [if_neg hc0, if_pos hc1] at h
        exact ih t1 ht1 st h
      · simp only [if_neg hc0, if_neg hc1] at h
        simp at h

theorem mod3_runFrom_foreign (input : List Char) :
    ∀ current, current ∈ [StateS0, StateS1, StateS2] →
      (∃ c ∈ input, c ≠ '0' ∧ c ≠ '1') →
      ∃ e, runFrom GetModThreeConfig current input = ("", some e) := by
  induction input with
  | nil =>
    rintro current _ ⟨c, hc, -⟩
    cases hc
  | cons c rest ih =>
    rintro current hcur ⟨d, hd, hd0, hd1⟩
    obtain ⟨t0, t1, hrow, ht0, ht1⟩ := mod3_rows current hcur
    by_cases hc0 : c = '0'
    · have hd' : d ∈ rest := by
        rcases List.mem_cons.mp hd with h | h
        · exact absurd (h.trans hc0) hd0
        · exact h
      obtain ⟨e, he⟩ := ih t0 ht0 ⟨d, hd', hd0, hd1⟩
      refine ⟨e, ?_⟩
      simp only [runFrom, hrow, lookup_pair, if_pos hc0]
      exact he
    · by_cases hc1 : c = '1'
      · have hd' : d ∈ rest := by
          rcases List.mem_cons.mp hd with h | h
          · exact absurd (h.trans hc1) hd1
          · exact h
        obtain ⟨e, he⟩ := ih t1 ht1 ⟨d, hd', hd0, hd1⟩
        refine ⟨e, ?_⟩
        simp only [runFrom, hrow, lookup_pair, if_neg hc0, if_pos hc1]
        exact he
      · refine ⟨RunError.unknownSymbol current (runeStr c), ?_⟩
        simp only [runFrom, hrow, lookup_pair, if_neg hc0, if_neg hc1]

theorem mod3_runFrom_bits (input : List Char) :
    ∀ r : Nat, (∀ c ∈ input, c = '0' ∨ c = '1') →
      runFrom GetModThreeConfig (stateOfMod3 r) input =
        (stateOfMod3 (natOfBitsFrom r input), none) := by
  induction input with
  | nil => intro r _; rfl
  | cons c rest ih =>
    intro r hall
    have hrest : ∀ d ∈ rest, d = '0' ∨ d = '1' :=
      fun d hd => hall d (List.mem_cons_of_mem c hd)
    have h3 : r % 3 = 0 ∨ r % 3 = 1 ∨ r % 3 = 2 := by omega
    rcases hall c (List.mem_cons_self c rest) with hc | hc <;> subst hc
    · have hfold : natOfBitsFrom r ('0' :: rest) = natOfBitsFrom (2 * r) rest := by
        simp [natOfBitsFrom]
      rw [hfold]
      rcases h3 with h3 | h3 | h3
      · have hs : stateOfMod3 r = StateS0 := by simp [stateOfMod3, h3]
        have hm : (2 * r) % 3 = 0 := by omega
        have hs2 : stateOfMod3 (2 * r) = StateS0 := by simp [stateOfMod3, hm]
        have hih := ih (2 * r) hrest
        rw [hs2] at hih
        rw [hs]
        exact hih
      · have hs : stateOfMod3 r = StateS1 := by simp [stateOfMod3, h3]
        have hm : (2 * r) % 3 = 2 := by omega
        have hs2 : stateOfMod3 (2 * r) = StateS2 := by simp [stateOfMod3, hm]
        have hih := ih (2 * r) hrest
        rw [hs2] at hih
        rw [hs]
        exact hih
      · have hs : stateOfMod3 r = StateS2 := by simp [stateOfMod3, h3]
        have hm : (2 * r) % 3 = 1 := by omega
        have hs2 : stateOfMod3 (2 * r) = StateS1 := by simp [stateOfMod3, hm]
        have hih := ih (2 * r) hrest
        rw [hs2] at hih
        rw [hs]
        exact hih
    · have hfold : natOfBitsFrom r ('1' :: rest) = natOfBitsFrom (2 * r + 1) rest := by
        simp [natOfBitsFrom]
      rw [hfold]
      rcases h3 with h3 | h3 | h3
      · have hs : stateOfMod3 r = StateS0 := by simp [stateOfMod3, h3]
        have hm : (2 * r + 1) % 3 = 1 := by omega
        have hs2 : stateOfMod3 (2 * r + 1) = StateS1 := by simp [stateOfMod3, hm]
        have hih := ih (2 * r + 1) hrest
        rw [hs2] at hih
        rw [hs]
        exact hih
      · have hs : stateOfMod3 r = StateS1 := by simp [stateOfMod3, h3]
        have hm : (2 * r + 1) % 3 = 0 := by omega
        have hs2 : stateOfMod3 (2 * r + 1) = StateS0 := by simp [stateOfMod3, hm]
        have hih := ih (2 * r + 1) hrest
        rw [hs2] at hih
        rw [hs]
        exact hih
      · have hs : stateOfMod3 r = StateS2 := by simp [stateOfMod3, h3]
        have hm : (2 * r + 1) % 3 = 2 := by omega
        have hs2 : stateOfMod3 (2 * r + 1) = StateS2 := by simp [stateOfMod3, hm]
        have hih := ih (2 * r + 1) hrest
        rw [hs2] at hih
        rw [hs]
        exact hih

/-- Claim C2: `NewFiniteAutomaton` succeeds if and only if the supplied
configuration satisfies all four invariants (initial state declared,
accepting states declared, a transition entry for every declared state
and symbol, every such target declared); on a violation it returns an
error and no automaton, and on success the returned automaton itself
satisfies all four invariants. -/
theorem c2_construction_iff_invariants (states alphabet : List String)
    (i : String) (acc : List String) (tr : TransTable) :
    ((∃ fa, NewFiniteAutomaton states alphabet i acc tr = Except.ok fa) ↔
      ConfigValid states alphabet i acc tr) ∧
    (∀ fa, NewFiniteAutomaton states alphabet i acc tr = Except.ok fa →
      ConfigValid fa.States fa.Alphabet fa.InitialState fa.AcceptingStates
        fa.Transitions) := by
  refine ⟨newFiniteAutomaton_ok_iff states alphabet i acc tr, ?_⟩
  intro fa h
  rw [newFiniteAutomaton_ok_fields states alphabet i acc tr fa h]
  exact (newFiniteAutomaton_ok_iff states alphabet i acc tr).mp ⟨fa, h⟩

/-- Witness for C2 at the modulo-three configuration. -/
theorem c2_construction_iff_invariants_witness :
    ConfigValid [StateS0, StateS1, StateS2] [Symbol0, Symbol1] StateS0
      [StateS0, StateS1, StateS2] GetModThreeConfig.Transitions :=
  (c2_construction_iff_invariants [StateS0, StateS1, StateS2] [Symbol0, Symbol1]
    StateS0 [StateS0, StateS1, StateS2] GetModThreeConfig.Transitions).1.mp
    ⟨GetModThreeConfig, rfl⟩

/-- Claim C3: on any automaton returned by `NewFiniteAutomaton` and any input
accepted by `ValidateInput`, `Run` returns a terminal state with no
error, and the terminal state is a declared state — both error branches
of `Run` are unreachable. -/
theorem c3_run_total_on_valid_input (states alphabet : List String) (i : String)
    (acc : List String) (tr : TransTable) (fa : FiniteAutomaton)
    (h : NewFiniteAutomaton states alphabet i acc tr = Except.ok fa)
    (input : List Char) (hv : fa.ValidateInput input = true) :
    ∃ st, fa.Run input = (st, none) ∧ st ∈ fa.States := by
  have hcv := (newFiniteAutomaton_ok_iff states alphabet i acc tr).mp ⟨fa, h⟩
  have hfields := newFiniteAutomaton_ok_fields states alphabet i acc tr fa h
  subst hfields
  obtain ⟨h1, h2, h3⟩ := hcv
  have hv' : ∀ c ∈ input, runeStr c ∈ alphabet := by
    intro c hc
    have hall := List.all_eq_true.mp hv c hc
    simpa using hall
  exact runFrom_ok_of_closed _ h3 input i h1 hv'

/-- Witness for C3 at the modulo-three automaton and input "110". -/
theorem c3_run_total_on_valid_input_witness :
    ∃ st, GetModThreeConfig.Run "110".data = (st, none) ∧
      st ∈ GetModThreeConfig.States :=
  c3_run_total_on_valid_input [StateS0, StateS1, StateS2] [Symbol0, Symbol1]
    StateS0 [StateS0, StateS1, StateS2] GetModThreeConfig.Transitions
    GetModThreeConfig rfl "110".data (by decide)

/-- Claim C4: whenever `Run` succeeds the terminal state is the left fold of
the transition function over the input's symbols starting from the
initial state, and on the empty input `Run` returns the initial state
with no error, for every automaton. -/
theorem c4_run_is_left_fold (fa : FiniteAutomaton) (input : List Char) :
    (∀ st, fa.Run input = (st, none) → runSpec fa input = some st) ∧
    fa.Run [] = (fa.InitialState, none) := by
  constructor
  · intro st h
    exact runFrom_ok_foldlM fa input fa.InitialState st h
  · rfl

/-- Witness for C4 at the modulo-three automaton and input "10". -/
theorem c4_run_is_left_fold_witness :
    runSpec GetModThreeConfig "10".data = some StateS2 :=
  (c4_run_is_left_fold GetModThreeConfig "10".data).1 StateS2 (by decide)

/-- Claim C8: on an execution failure `Run` stops at the first failing symbol,
consumes no further symbols (any continuation of the input beyond the
failing symbol produces the same result), and returns the zero state ""
with the error, discarding the partial state. -/
theorem c8_error_stops_and_discards (fa : FiniteAutomaton) (input : List Char)
    (st : String) (e : RunError) (h : fa.Run input = (st, some e)) :
    st = "" ∧ ∃ pre c rest s, input = pre ++ c :: rest ∧
      runFrom fa fa.InitialState pre = (s, none) ∧
      runFrom fa s [c] = ("", some e) ∧
      ∀ rest2, fa.Run (pre ++ c :: rest2) = ("", some e) := by
  obtain ⟨h1, pre, c, rest, s, hsplit, hpre, hstep, hall⟩ :=
    runFrom_error_split fa input fa.InitialState st e h
  exact ⟨h1, pre, c, rest, s, hsplit, hpre, hstep, fun r2 => hall r2⟩

/-- Witness for C8 at the modulo-three automaton and input "1A0". -/
theorem c8_error_stops_and_discards_witness :
    ("" : String) = "" ∧ ∃ pre c rest s, "1A0".data = pre ++ c :: rest ∧
      runFrom GetModThreeConfig GetModThreeConfig.InitialState pre = (s, none) ∧
      runFrom GetModThreeConfig s [c] =
        ("", some (RunError.unknownSymbol StateS1 (runeStr 'A'))) ∧
      ∀ rest2, GetModThreeConfig.Run (pre ++ c :: rest2) =
        ("", some (RunError.unknownSymbol StateS1 (runeStr 'A'))) :=
  c8_error_stops_and_discards GetModThreeConfig "1A0".data ""
    (RunError.unknownSymbol StateS1 (runeStr 'A')) (by decide)

/-- Claim C9: `ValidateInput` is true exactly when every character of the input
is in the declared alphabet; the empty input is always valid, and one
foreign character anywhere in the input makes it false. -/
theorem c9_validate_input_iff (fa : FiniteAutomaton) (input : List Char) :
    (fa.ValidateInput input = true ↔ ∀ c ∈ input, runeStr c ∈ fa.Alphabet) ∧
    fa.ValidateInput [] = true ∧
    (∀ pre c post, input = pre ++ c :: post → runeStr c ∉ fa.Alphabet →
      fa.ValidateInput input = false) := by
  have hiff : fa.ValidateInput input = true ↔
      ∀ c ∈ input, runeStr c ∈ fa.Alphabet := by
    unfold FiniteAutomaton.ValidateInput
    rw [List.all_eq_true]
    constructor
    · intro h c hc
      simpa using h c hc
    · intro h c hc
      simpa using h c hc
  refine ⟨hiff, rfl, ?_⟩
  intro pre c post hsplit hnot
  cases hval : fa.ValidateInput input with
  | false => rfl
  | true =>
    exact absurd
      (hiff.mp hval c
        (by rw [hsplit]; exact List.mem_append_right pre (List.mem_cons_self c post)))
      hnot

/-- Witness for C9 at the modulo-three automaton and input "1A0". -/
theorem c9_validate_input_iff_witness :
    GetModThreeConfig.ValidateInput "1A0".data = false :=
  (c9_validate_input_iff GetModThreeConfig "1A0".data).2.2 ['1'] 'A' ['0'] rfl
    (by decide)

theorem stateToRemainder_cases (s : String) :
    stateToRemainder s = 0 ∨ stateToRemainder s = 1 ∨ stateToRemainder s = 2 ∨
      stateToRemainder s = -1 := by
  unfold stateToRemainder
  split
  · exact Or.inl rfl
  · split
    · exact Or.inr (Or.inl rfl)
    · split
      · exact Or.inr (Or.inr (Or.inl rfl))
      · exact Or.inr (Or.inr (Or.inr rfl))

theorem calculate_shape (mc : ModThreeCalculator) (input : List Char) :
    Calculate mc input = (0, none) ∨
    (∃ er, Calculate mc input = (-1, some er)) ∨
    (∃ fs, Calculate mc input = (stateToRemainder fs, none) ∧
      stateToRemainder fs ≠ -1) := by
  unfold Calculate
  split
  · exact Or.inl rfl
  · split
    · exact Or.inr (Or.inl ⟨_, rfl⟩)
    · split
      · exact Or.inr (Or.inl ⟨_, rfl⟩)
      · rename_i fs _ _
        by_cases hrem : stateToRemainder fs = -1
        · rw [if_pos hrem]
          exact Or.inr (Or.inl ⟨_, rfl⟩)
        · rw [if_neg hrem]
          exact Or.inr (Or.inr ⟨fs, rfl, hrem⟩)

/-- Claim C5: `Calculate` returns a non-nil error exactly when the returned
remainder is the sentinel -1; every success carries a remainder in
{0, 1, 2}; and on the standard calculator any input that does not trim
to empty and contains a character outside the alphabet produces the
sentinel with a non-nil error. -/
theorem c5_sentinel_iff_error (input : List Char) :
    (∀ mc : ModThreeCalculator,
      ((Calculate mc input).2.isSome = true ↔ (Calculate mc input).1 = -1) ∧
      ((Calculate mc input).2 = none →
        (Calculate mc input).1 = 0 ∨ (Calculate mc input).1 = 1 ∨
          (Calculate mc input).1 = 2)) ∧
    (trimSpace input ≠ [] → (∃ c ∈ input, c ≠ '0' ∧ c ≠ '1') →
      (Calculate mod3Calc input).1 = -1 ∧
        (Calculate mod3Calc input).2.isSome = true) := by
  constructor
  · intro mc
    rcases calculate_shape mc input with h | ⟨er, h⟩ | ⟨fs, h, hrem⟩
    · rw [h]
      exact ⟨by simp, fun _ => Or.inl rfl⟩
    · rw [h]
      exact ⟨by simp, by simp⟩
    · rw [h]
      refine ⟨by simpa using hrem, fun _ => ?_⟩
      rcases stateToRemainder_cases fs with h0 | h1 | h2 | hm1
      · exact Or.inl h0
      · exact Or.inr (Or.inl h1)
      · exact Or.inr (Or.inr h2)
      · exact absurd hm1 hrem
  · intro ht ⟨c, hc, hc0, hc1⟩
    obtain ⟨e, he⟩ :=
      mod3_runFrom_foreign input StateS0 (by decide) ⟨c, hc, hc0, hc1⟩
    have he' : mod3Calc.fa.Run input = ("", some e) := he
    unfold Calculate
    rw [if_neg ht]
    simp only [he']
    exact ⟨trivial, rfl⟩

/-- Witness for C5 at input "1A0". -/
theorem c5_sentinel_iff_error_witness :
    (Calculate mod3Calc "1A0".data).1 = -1 ∧
      (Calculate mod3Calc "1A0".data).2.isSome = true :=
  (c5_sentinel_iff_error "1A0".data).2 (by decide)
    ⟨'A', by decide, by decide, by decide⟩

/-- Claim C7: any input that trims to empty makes `Calculate` return (0, nil)
for every calculator, whatever its automaton does — the engine is never
consulted. -/
theorem c7_trim_empty_returns_zero (mc : ModThreeCalculator)
    (input : List Char) (h : trimSpace input = []) :
    Calculate mc input = (0, none) := by
  unfold Calculate
  rw [if_pos h]

/-- Witness for C7: whitespace input on a calculator whose automaton
fails on every run still yields (0, nil). -/
theorem c7_trim_empty_returns_zero_witness :
    Calculate
      { fa := { Run := fun _ => ("", some (RunError.missingRow "X")),
                IsAccepting := fun _ => false,
                ValidateInput := fun _ => false } } " \t\n".data = (0, none) :=
  c7_trim_empty_returns_zero _ " \t\n".data (by decide)

/-- Claim C6: contrary to the documented pipeline, `Calculate` performs no
alphabet validation step before running the automaton: on "1A0" the
error it returns is the engine execution error surfaced from `Run`
(unknown symbol 'A' at state S1), and the error type of `Calculate` has
no invalid-input variant at all.  The repository's own test expects a
"validate Input" domain error here, so the code contradicts its test. -/
theorem c6_rejection_comes_from_run_not_validation :
    Calculate mod3Calc "1A0".data =
      (-1, some (CalcError.runErr (RunError.unknownSymbol StateS1 (runeStr 'A')))) := by
  decide

/-- Claim C1: on any input of '0'/'1' characters (the empty string included),
the calculator built from `GetModThreeConfig` returns the value of the
binary numeral modulo 3, with no error. -/
theorem c1_calculate_mod_three (input : List Char)
    (h : ∀ c ∈ input, c = '0' ∨ c = '1') :
    NewModThreeCalculator GetModThreeConfig = Except.ok mod3Calc ∧
    Calculate mod3Calc input = (((natOfBits input % 3 : Nat) : Int), none) := by
  refine ⟨rfl, ?_⟩
  cases input with
  | nil => rfl
  | cons c rest =>
    have htrim : trimSpace (c :: rest) ≠ [] := by
      intro hnil
      have hsp := (trimSpace_eq_nil_iff (c :: rest)).mp hnil c
        (List.mem_cons_self c rest)
      rcases h c (List.mem_cons_self c rest) with hc | hc <;> subst hc <;>
        simp [isGoSpace] at hsp
    have hrun : mod3Calc.fa.Run (c :: rest) =
        (stateOfMod3 (natOfBits (c :: rest)), none) := by
      rw [natOfBits_eq_from]
      exact mod3_runFrom_bits (c :: rest) 0 h
    unfold Calculate
    rw [if_neg htrim]
    simp only [hrun]
    have h3 : natOfBits (c :: rest) % 3 = 0 ∨ natOfBits (c :: rest) % 3 = 1 ∨
        natOfBits (c :: rest) % 3 = 2 := by omega
    rcases h3 with h3 | h3 | h3
    · rw [show stateOfMod3 (natOfBits (c :: rest)) = StateS0 from by
            simp [stateOfMod3, h3], h3]
      rfl
    · rw [show stateOfMod3 (natOfBits (c :: rest)) = StateS1 from by
            simp [stateOfMod3, h3], h3]
      rfl
    · rw [show stateOfMod3 (natOfBits (c :: rest)) = StateS2 from by
            simp [stateOfMod3, h3], h3]
      rfl

/-- Witness for C1 at input "101" (5 mod 3 = 2). -/
theorem c1_calculate_mod_three_witness :
    (∀ c ∈ "101".data, c = '0' ∨ c = '1') ∧
    (NewModThreeCalculator GetModThreeConfig = Except.ok mod3Calc ∧
      Calculate mod3Calc "101".data =
        (((natOfBits "101".data % 3 : Nat) : Int), none)) :=
  ⟨by decide, c1_calculate_mod_three "101".data (by decide)⟩

/-- Claim C10: the alternative `ModThree` pipeline agrees with the remainder
component of `Calculate` on the calculator built from
`GetModThreeConfig`, on every input. -/
theorem c10_pipelines_agree :
    NewModThreeCalculator GetModThreeConfig = Except.ok mod3Calc ∧
    ∀ input, ModThree input = (Calculate mod3Calc input).1 := by
  refine ⟨rfl, ?_⟩
  intro input
  by_cases ht : trimSpace input = []
  · unfold ModThree modThreeCore Calculate
    rw [if_pos ht, if_pos ht]
  · unfold ModThree modThreeCore Calculate
    rw [if_neg ht, if_neg ht]
    have hsame : ModThreeFA.toAutomaton.Run input = mod3Calc.fa.Run input := rfl
    rw [hsame]
    rcases hrun : mod3Calc.fa.Run input with ⟨fs, oe⟩
    rcases oe with _ | e
    · have hrun' : runFrom GetModThreeConfig StateS0 input = (fs, none) := hrun
      have hmem : fs ∈ [StateS0, StateS1, StateS2] :=
        mod3_runFrom_mem input StateS0 (by decide) fs hrun'
      simp only [hrun]
      fin_cases hmem <;> rfl
    · simp only [hrun]
